import Mathlib

/-!
Verification of the lab-report parsing core (`lab_processor.py`) and its
request pipeline (`main.py`).

The embedding translates the Python source into executable Lean definitions:

* Python `re.search` over the three hard-coded patterns is embedded as a
  backtracking matcher (`rmatch` / `rsearch`) over an item list (`RItem`).
  Each pattern here is a sequence of character-class quantifiers (`+`, `*`),
  a literal `-`, and for the unit-backfill pattern an end-of-string anchor,
  so the generic item matcher covers the source patterns exactly, with
  Python's leftmost-position, greedy-first backtracking order.
* Character classes are the ASCII readings of `[A-Za-z]`, `\s`, `\d`,
  `[\d\.]`, `[A-Za-z\/%]` (Python's str-mode classes additionally accept
  some non-ASCII code points; the inputs of interest are ASCII).
* Python `float(...)` applied to a `[\d\.]+` capture is embedded as
  `parseFloat : List Char → Option PyFloat`: it succeeds exactly on
  captures with at least one digit and at most one dot, and the value is
  the exact decimal `mant / 10^fexp` (`PyFloat.toRat`); comparisons are the
  exact rational comparisons.  `str(float)`/f-string rendering is embedded
  as `pyFloatStr`, the shortest decimal rendering with at least one
  fractional digit, which is what CPython's `repr` produces for the short
  decimal literals these captures denote.
* `text.split('\n')`, `str.strip()` and truthiness tests are embedded as
  `splitOnNl`, `pyStrip`, `isBlank` over `List Char`.
* The external collaborators (PIL image decode, the Tesseract OCR call) are
  oracles passed as `Except`-valued arguments to the pipeline model
  `process_report` / `process_lab_report`; the code's single generic
  exception type is the one-constructor `PipeErr`.
-/

/-- Class `\s` of the source patterns, read over ASCII: the six Python
whitespace control characters and the space. -/
def isPySpace (c : Char) : Bool :=
  c = ' ' || c = '\t' || c = '\n' || c = '\r' || c.toNat = 11 || c.toNat = 12

/-- Class `[A-Za-z\s\(\)]` of the name capture group. -/
def isNameChar (c : Char) : Bool :=
  c.isAlpha || isPySpace c || c = '(' || c = ')'

/-- Class `[\d\.]` of the numeric capture groups. -/
def isNumChar (c : Char) : Bool :=
  c.isDigit || c = '.'

/-- Class `[A-Za-z\/%]` of the unit capture groups. -/
def isUnitChar (c : Char) : Bool :=
  c.isAlpha || c = '/' || c = '%'

/-- One item of a source pattern: a greedy one-or-more character class
(possibly capturing), a greedy zero-or-more class, a literal character, or
the `$` end anchor. -/
inductive RItem where
  | plus (cap : Bool) (cls : Char → Bool)
  | star (cls : Char → Bool)
  | lit (c : Char)
  | eos

/-- All splits of `s` into a prefix run of `p`-characters and the rest, in
ascending prefix length: `[([], s), ([c₁], rest₁), …]`. -/
def ascSplits (p : Char → Bool) : List Char → List (List Char × List Char)
  | [] => [([], [])]
  | c :: s =>
    ([], c :: s) ::
      (if p c then (ascSplits p s).map (fun pr => (c :: pr.1, pr.2)) else [])

/-- Candidate ways one item can consume a prefix of `s`, in the order the
Python engine tries them (greedy: longest first), each with the captured
text (when the item captures) and the remaining suffix. -/
def rcands : RItem → List Char → List (Option (List Char) × List Char)
  | .plus cap p, s =>
    (ascSplits p s).reverse.filterMap fun pr =>
      if pr.1.isEmpty then none else
        some (if cap then some pr.1 else none, pr.2)
  | .star p, s => (ascSplits p s).reverse.map fun pr => (none, pr.2)
  | .lit c, s =>
    match s with
    | [] => []
    | c₂ :: s₂ => if c₂ = c then [(none, s₂)] else []
  | .eos, s =>
    match s with
    | [] => [(none, [])]
    | _ :: _ => []

/-- Backtracking match of an item sequence against a prefix of `s`
(anchored at the start of `s`, arbitrary text may remain): returns the
captured groups in order for the first match in backtracking order, which
is the match Python's engine reports. -/
def rmatch : List RItem → List Char → Option (List (List Char))
  | [] => fun _ => some []
  | it :: rest => fun s =>
    (rcands it s).findSome? fun cnd =>
      match rmatch rest cnd.2 with
      | none => none
      | some caps =>
        match cnd.1 with
        | some g => some (g :: caps)
        | none => some caps

/-- Embedding of `re.search`: try to match at each start position from the
left, returning the captures of the leftmost match. -/
def rsearch (items : List RItem) : List Char → Option (List (List Char))
  | [] => rmatch items []
  | c :: s =>
    match rmatch items (c :: s) with
    | some caps => some caps
    | none => rsearch items s

/-- Pattern 1 of `_parse_test_line`:
`([A-Za-z\s\(\)]+)\s*([\d\.]+)\s*([\d\.]+)\s*-\s*([\d\.]+)\s*([A-Za-z\/%]+)`. -/
def patternA : List RItem :=
  [.plus true isNameChar, .star isPySpace, .plus true isNumChar,
   .star isPySpace, .plus true isNumChar, .star isPySpace, .lit '-',
   .star isPySpace, .plus true isNumChar, .star isPySpace,
   .plus true isUnitChar]

/-- Pattern 2 of `_parse_test_line`:
`([A-Za-z\s\(\)]+)\s*([\d\.]+)\s*([A-Za-z\/%]+)\s*([\d\.]+)\s*-\s*([\d\.]+)`. -/
def patternB : List RItem :=
  [.plus true isNameChar, .star isPySpace, .plus true isNumChar,
   .star isPySpace, .plus true isUnitChar, .star isPySpace,
   .plus true isNumChar, .star isPySpace, .lit '-', .star isPySpace,
   .plus true isNumChar]

/-- Pattern 3 of `_parse_test_line`:
`([A-Za-z\s\(\)]+)\s*([\d\.]+)\s*([\d\.]+)\s*-\s*([\d\.]+)`. -/
def patternC : List RItem :=
  [.plus true isNameChar, .star isPySpace, .plus true isNumChar,
   .star isPySpace, .plus true isNumChar, .star isPySpace, .lit '-',
   .star isPySpace, .plus true isNumChar]

/-- Pattern `([A-Za-z\/%]+)$` of `_update_test_info`. -/
def unitEndPattern : List RItem :=
  [.plus true isUnitChar, .eos]

/-- Numeric value of a digit list, most significant first. -/
def digitsVal (ds : List Char) : Nat :=
  ds.foldl (fun a c => 10 * a + (c.toNat - 48)) 0

/-- Value of a `float` parsed from a `[\d\.]+` capture: the nonnegative
exact decimal `mant / 10^fexp` (kept as a pair of naturals so every
operation on it is machine-level kernel arithmetic). -/
structure PyFloat where
  mant : Nat
  fexp : Nat
deriving DecidableEq, Repr

/-- Rational value of a parsed float (used in the statements). -/
def PyFloat.toRat (x : PyFloat) : ℚ :=
  (x.mant : ℚ) / (10 : ℚ) ^ x.fexp

/-- The comparison `a <= b` of two parsed floats (cross-multiplied, so it
is decided in `Nat`). -/
def PyFloat.ble (a b : PyFloat) : Bool :=
  decide (a.mant * 10 ^ b.fexp ≤ b.mant * 10 ^ a.fexp)

/-- Embedding of Python `float(...)` on a `[\d\.]+` capture: defined (and
exact) when the capture has at most one `.` and at least one digit,
otherwise the `ValueError` branch, embedded as `none`. -/
def parseFloat (cs : List Char) : Option PyFloat :=
  let ip := cs.takeWhile (fun c => c ≠ '.')
  let rest := cs.dropWhile (fun c => c ≠ '.')
  if ip.all Char.isDigit then
    match rest with
    | [] => if ip.isEmpty then none else some ⟨digitsVal ip, 0⟩
    | _ :: fp =>
      if fp.all Char.isDigit && (!ip.isEmpty || !fp.isEmpty) then
        some ⟨digitsVal ip * 10 ^ fp.length + digitsVal fp, fp.length⟩
      else none
  else none

/-- Shortest-form normalization of a decimal `m / 10^e`: divide out
trailing zeros of the fractional part. -/
def decNorm : Nat → Nat → Nat × Nat
  | m, 0 => (m, 0)
  | m, e + 1 => if m % 10 = 0 then decNorm (m / 10) e else (m, e + 1)

/-- Embedding of Python `str(...)` on a float parsed from a `[\d\.]+`
capture: the shortest decimal rendering, with `.0` appended to integral
values, e.g. `13.5 ↦ "13.5"`, `180 ↦ "180.0"`. -/
def pyFloatStr (x : PyFloat) : String :=
  let p := decNorm x.mant x.fexp
  if p.2 = 0 then toString p.1 ++ ".0"
  else
    let fs := toString (p.1 % 10 ^ p.2)
    toString (p.1 / 10 ^ p.2) ++ "." ++
      String.mk (List.replicate (p.2 - fs.length) '0') ++ fs

/-- Embedding of Python `str.strip()` over ASCII: drop whitespace from both
ends. -/
def pyStrip (cs : List Char) : List Char :=
  ((cs.dropWhile isPySpace).reverse.dropWhile isPySpace).reverse

/-- The dictionary built by `_parse_test_line` (the only domain entity). -/
structure TestRecord where
  test_name : String
  test_value : String
  bio_reference_range : String
  test_unit : String
  lab_test_out_of_range : Bool
deriving DecidableEq, Repr

/-- The per-pattern parse result before the record dictionary is built:
stripped name, the three parsed numbers, and the stripped unit. -/
structure ParsedFields where
  name : String
  value : PyFloat
  rmin : PyFloat
  rmax : PyFloat
  unit : String
deriving DecidableEq, Repr

/-- The record dictionary built from the parsed fields, as in lines 157–163
of the source: `str(value)`, `f"{ref_min}-{ref_max}"`, and
`not (ref_min <= value <= ref_max)`. -/
def mkRecord (f : ParsedFields) : TestRecord :=
  { test_name := f.name
    test_value := pyFloatStr f.value
    bio_reference_range := pyFloatStr f.rmin ++ "-" ++ pyFloatStr f.rmax
    test_unit := f.unit
    lab_test_out_of_range := !(f.rmin.ble f.value && f.value.ble f.rmax) }

/-- Identifier of one of the three source patterns, in priority order. -/
inductive PatId where
  | A
  | B
  | C
deriving DecidableEq, Repr

/-- Items of each source pattern. -/
def patItems : PatId → List RItem
  | .A => patternA
  | .B => patternB
  | .C => patternC

/-- Group extraction of `_parse_test_line` for one matched pattern: the
branch on the number of groups and on the pattern identity, with the
`float` conversions whose `ValueError` (embedded as `none`) makes the
pattern fail softly. -/
def patFields : PatId → List (List Char) → Option ParsedFields
  | .A, [g1, g2, g3, g4, g5] =>
    (parseFloat g2).bind fun v =>
      (parseFloat g3).bind fun mn =>
        (parseFloat g4).bind fun mx =>
          some ⟨String.mk (pyStrip g1), v, mn, mx, String.mk (pyStrip g5)⟩
  | .B, [g1, g2, g3, g4, g5] =>
    (parseFloat g2).bind fun v =>
      (parseFloat g4).bind fun mn =>
        (parseFloat g5).bind fun mx =>
          some ⟨String.mk (pyStrip g1), v, mn, mx, String.mk (pyStrip g3)⟩
  | .C, [g1, g2, g3, g4] =>
    (parseFloat g2).bind fun v =>
      (parseFloat g3).bind fun mn =>
        (parseFloat g4).bind fun mx =>
          some ⟨String.mk (pyStrip g1), v, mn, mx, ""⟩
  | _, _ => none

/-- The `for pattern in patterns` loop of `_parse_test_line`: search each
pattern in order; a pattern whose match has an unparseable numeric group
falls through (`continue`) to the next pattern. -/
def coreLoop : List PatId → List Char → Option ParsedFields
  | [], _ => none
  | p :: ps, line =>
    match rsearch (patItems p) line with
    | none => coreLoop ps line
    | some caps =>
      match patFields p caps with
      | some f => some f
      | none => coreLoop ps line

/-- Parsed fields of `_parse_test_line` on one line, before the record
dictionary is built. -/
def parseTestLineCore (line : List Char) : Option ParsedFields :=
  coreLoop [.A, .B, .C] line

/-- Embedding of `_parse_test_line`. -/
def parseTestLine (line : List Char) : Option TestRecord :=
  (parseTestLineCore line).map mkRecord

/-- One pattern attempted on its own: its `re.search` followed by the
numeric conversions (used to state the first-match-wins policy). -/
def tryPat (p : PatId) (line : List Char) : Option ParsedFields :=
  match rsearch (patItems p) line with
  | none => none
  | some caps => patFields p caps

/-- Embedding of `_update_test_info`: backfill `test_unit` from a trailing
`[A-Za-z\/%]+` run only when the unit is still empty. -/
def updateTestInfo (t : TestRecord) (line : List Char) : TestRecord :=
  if t.test_unit = "" then
    match rsearch unitEndPattern line with
    | some [u] => { t with test_unit := String.mk (pyStrip u) }
    | _ => t
  else t

/-- Embedding of Python `text.split('\n')`. -/
def splitOnNl : List Char → List (List Char)
  | [] => [[]]
  | c :: cs =>
    if c = '\n' then [] :: splitOnNl cs
    else
      match splitOnNl cs with
      | [] => [[c]]
      | l :: ls => (c :: l) :: ls

/-- Truthiness of `line.strip()`, negated: a line that the assembler loop
skips. -/
def isBlank (l : List Char) : Bool :=
  l.all isPySpace

/-- The line loop of `_extract_lab_tests`: accumulator `acc` is the
`lab_tests` list, `cur` the `current_test` variable; the final record, when
open, is appended after the loop. -/
def extractGo : List (List Char) → List TestRecord → Option TestRecord → List TestRecord
  | [], acc, cur => acc ++ cur.toList
  | l :: ls, acc, cur =>
    if isBlank l then extractGo ls acc cur
    else
      match parseTestLine l, cur with
      | some t, some c => extractGo ls (acc ++ [c]) (some t)
      | some t, none => extractGo ls acc (some t)
      | none, some c => extractGo ls acc (some (updateTestInfo c l))
      | none, none => extractGo ls acc none

/-- Embedding of `_extract_lab_tests`. -/
def extractLabTests (text : String) : List TestRecord :=
  extractGo (splitOnNl text.toList) [] none

/-- The single error shape of the source: Python raises the generic
`Exception` type everywhere, carrying only a message. -/
inductive PipeErr where
  | exc (msg : String)
deriving DecidableEq, Repr

/-- Embedding of `process_report`: the image decode (PIL `Image.open` plus
preprocessing) and the OCR engine call are external collaborators passed as
oracles; any exception from either is caught and re-raised as a generic
`Exception` wrapping the message. -/
def process_report (decodeRes : Except String Unit)
    (ocrRes : Except String String) : Except PipeErr (List TestRecord) :=
  match decodeRes with
  | .error m => .error (.exc ("Error processing image: " ++ m))
  | .ok _ =>
    match ocrRes with
    | .error m => .error (.exc ("Error processing image: " ++ m))
    | .ok text => .ok (extractLabTests text)

/-- The in-band response shape of `main.py` (`data` present on success,
`error` on failure). -/
structure ApiResponse where
  is_success : Bool
  data : List TestRecord
  error : Option String
deriving DecidableEq, Repr

/-- Embedding of the `/get-lab-tests` handler body: all failures are caught
and reported in-band. -/
def process_lab_report (decodeRes : Except String Unit)
    (ocrRes : Except String String) : ApiResponse :=
  match process_report decodeRes ocrRes with
  | .ok recs => ⟨true, recs, none⟩
  | .error (.exc m) => ⟨false, [], some m⟩

/-- Projection of a record onto the fields `_update_test_info` can never
touch (everything except `test_unit`). -/
def projR (r : TestRecord) : String × String × String × Bool :=
  (r.test_name, r.test_value, r.bio_reference_range, r.lab_test_out_of_range)

/-! ### Bridging lemmas -/

theorem PyFloat.ble_iff (a b : PyFloat) :
    a.ble b = true ↔ a.toRat ≤ b.toRat := by
  rw [PyFloat.ble, PyFloat.toRat, PyFloat.toRat, decide_eq_true_iff,
    div_le_div_iff₀ (by positivity) (by positivity)]
  constructor
  · intro h; exact_mod_cast h
  · intro h; exact_mod_cast h

theorem mkRecord_flag_iff (f : ParsedFields) :
    (mkRecord f).lab_test_out_of_range = true ↔
      f.value.toRat < f.rmin.toRat ∨ f.rmax.toRat < f.value.toRat := by
  have h1 := PyFloat.ble_iff f.rmin f.value
  have h2 := PyFloat.ble_iff f.value f.rmax
  cases hb1 : f.rmin.ble f.value <;> cases hb2 : f.value.ble f.rmax <;>
    rw [hb1] at h1 <;> rw [hb2] at h2 <;>
    simp only [Bool.false_eq_true, false_iff, true_iff, not_le] at h1 h2 <;>
    simp only [mkRecord, hb1, hb2, Bool.and_false, Bool.false_and,
      Bool.and_true, Bool.true_and, Bool.not_false, Bool.not_true] <;>
    constructor <;> intro h
  · exact Or.inl h1
  · trivial
  · exact Or.inl h1
  · trivial
  · exact Or.inr h2
  · trivial
  · exact absurd h (by simp)
  · rcases h with h | h
    · exact absurd h (not_lt.mpr h1)
    · exact absurd h (not_lt.mpr h2)

theorem updateTestInfo_projR (t : TestRecord) (line : List Char) :
    projR (updateTestInfo t line) = projR t := by
  unfold updateTestInfo
  split
  · split <;> rfl
  · rfl

theorem coreLoop_cons (p : PatId) (ps : List PatId) (line : List Char) :
    coreLoop (p :: ps) line =
      (tryPat p line).orElse fun _ => coreLoop ps line := by
  cases hs : rsearch (patItems p) line with
  | none => simp [coreLoop, tryPat, hs, Option.orElse]
  | some caps =>
    cases hf : patFields p caps with
    | none => simp [coreLoop, tryPat, hs, hf, Option.orElse]
    | some f => simp [coreLoop, tryPat, hs, hf, Option.orElse]

/-! ### Claim theorems -/

/-- C2: the single input line `"Hemoglobin 13.5 12.0 - 16.0 g/dL"` produces
exactly one record, with name `"Hemoglobin"`, value `"13.5"`, range
`"12.0-16.0"`, unit `"g/dL"`, and the out-of-range flag false. -/
theorem C2_hemoglobin_line :
    extractLabTests "Hemoglobin 13.5 12.0 - 16.0 g/dL" =
      [⟨"Hemoglobin", "13.5", "12.0-16.0", "g/dL", false⟩] := by decide

/-- C10: a line whose name group matches only whitespace is accepted with an
empty (trimmed) `test_name`: `" 13.5 12.0 - 16.0 g/dL"` yields a record and
its `test_name` is the empty string. -/
theorem C10_empty_name :
    (parseTestLine " 13.5 12.0 - 16.0 g/dL".toList).map TestRecord.test_name =
      some "" := by decide

/-- C8: emitted values are the decimal renderings of the parsed floats, not
the matched source text: in general `test_value` is `pyFloatStr` of the
parsed value and `bio_reference_range` is the rendered bounds joined by a
dash, and concretely `"Glucose 180 70 - 99 mg/dL"` yields `"180.0"` and
`"70.0-99.0"` (not `"180"` and `"70-99"`). -/
theorem C8_decimal_rendering :
    (∀ (line : List Char) (f : ParsedFields), parseTestLineCore line = some f →
      (parseTestLine line).map TestRecord.test_value = some (pyFloatStr f.value) ∧
        (parseTestLine line).map TestRecord.bio_reference_range =
          some (pyFloatStr f.rmin ++ "-" ++ pyFloatStr f.rmax)) ∧
      parseTestLine "Glucose 180 70 - 99 mg/dL".toList =
        some ⟨"Glucose", "180.0", "70.0-99.0", "mg/dL", true⟩ := by
  constructor
  · intro line f h
    rw [parseTestLine, h]
    exact ⟨rfl, rfl⟩
  · decide

/-- Witness for C8 at the Glucose line. -/
theorem C8_witness :
    (parseTestLine "Glucose 180 70 - 99 mg/dL".toList).map TestRecord.test_value =
      some (pyFloatStr ⟨180, 0⟩) :=
  (C8_decimal_rendering.1 "Glucose 180 70 - 99 mg/dL".toList
    ⟨"Glucose", ⟨180, 0⟩, ⟨70, 0⟩, ⟨99, 0⟩, "mg/dL"⟩ (by decide)).1

/-- C1 counterexample: on the accepted line `"Aa 10 10 - 2 zz"` the parsed
value equals the parsed reference minimum (both `10`), yet the emitted
record has `lab_test_out_of_range = true` — refuting the claim that a value
exactly equal to either bound always yields `false`. -/
theorem C1_counterexample :
    (parseTestLineCore "Aa 10 10 - 2 zz".toList).map ParsedFields.value =
        (parseTestLineCore "Aa 10 10 - 2 zz".toList).map ParsedFields.rmin ∧
      (parseTestLineCore "Aa 10 10 - 2 zz".toList).isSome = true ∧
      (parseTestLine "Aa 10 10 - 2 zz".toList).map TestRecord.lab_test_out_of_range =
        some true := by decide

/-- C1 (amended): for every line the parser accepts, the emitted record's
`lab_test_out_of_range` is true iff the parsed value is strictly less than
the parsed reference minimum or strictly greater than the parsed reference
maximum; when additionally `ref_min ≤ ref_max`, a value exactly equal to
either bound yields `false` (for inverted ranges a value equal to a bound
can still be flagged, as the counterexample shows). -/
theorem C1_range_flag (line : List Char) (f : ParsedFields)
    (h : parseTestLineCore line = some f) :
    parseTestLine line = some (mkRecord f) ∧
      ((mkRecord f).lab_test_out_of_range = true ↔
        (f.value.toRat < f.rmin.toRat ∨ f.rmax.toRat < f.value.toRat)) ∧
      (f.rmin.toRat ≤ f.rmax.toRat →
        (f.value.toRat = f.rmin.toRat ∨ f.value.toRat = f.rmax.toRat) →
        (mkRecord f).lab_test_out_of_range = false) := by
  refine ⟨by rw [parseTestLine, h]; rfl, mkRecord_flag_iff f, ?_⟩
  intro hnorm hv
  rw [← Bool.not_eq_true, mkRecord_flag_iff]
  push_neg
  rcases hv with hv | hv <;> rw [hv]
  · exact ⟨le_refl _, hnorm⟩
  · exact ⟨hnorm, le_refl _⟩

/-- Witness for C1 at a boundary value inside a normal range: value 12 with
range 12–16 is in range. -/
theorem C1_witness :
    (mkRecord ⟨"Aa", ⟨12, 0⟩, ⟨12, 0⟩, ⟨16, 0⟩, "zz"⟩).lab_test_out_of_range =
      false :=
  (C1_range_flag "Aa 12 12 - 16 zz".toList _ (by decide)).2.2
    (by norm_num [PyFloat.toRat]) (Or.inl rfl)

/-- C9: for every accepted line whose parsed reference minimum exceeds its
parsed reference maximum, the emitted record is flagged out of range,
whatever the value. -/
theorem C9_inverted_range (line : List Char) (f : ParsedFields)
    (h : parseTestLineCore line = some f)
    (hinv : f.rmax.toRat < f.rmin.toRat) :
    (parseTestLine line).map TestRecord.lab_test_out_of_range = some true := by
  have hflag : (mkRecord f).lab_test_out_of_range = true := by
    rw [mkRecord_flag_iff]
    rcases lt_or_le f.value.toRat f.rmin.toRat with hv | hv
    · exact Or.inl hv
    · exact Or.inr (lt_of_lt_of_le hinv hv)
  rw [parseTestLine, h]
  show some (mkRecord f).lab_test_out_of_range = some true
  rw [hflag]

/-- Witness for C9 at the inverted-range line `"Aa 5 10 - 2 zz"`. -/
theorem C9_witness :
    (parseTestLine "Aa 5 10 - 2 zz".toList).map TestRecord.lab_test_out_of_range =
      some true :=
  C9_inverted_range "Aa 5 10 - 2 zz".toList ⟨"Aa", ⟨5, 0⟩, ⟨10, 0⟩, ⟨2, 0⟩, "zz"⟩
    (by decide) (by norm_num [PyFloat.toRat])

/-- C3 counterexample: an undecodable image and an OCR failure with the same
underlying message produce identical results — the code has a single
generic error shape, not a distinct `DecodeError` kind. -/
theorem C3_counterexample :
    process_report (Except.error "cannot identify image file") (Except.ok "") =
      process_report (Except.ok ()) (Except.error "cannot identify image file") :=
  rfl

/-- C3 (amended): when the input bytes are not a decodable image, processing
fails with the generic wrapped exception `"Error processing image: <cause>"`
— the same (only) error kind used for every processing failure — and the
handler surfaces it to the caller as an in-band failure with that message
(evaluated once, never retried). -/
theorem C3_decode_failure (m : String) (ocr : Except String String) :
    process_report (Except.error m) ocr =
        Except.error (PipeErr.exc ("Error processing image: " ++ m)) ∧
      process_lab_report (Except.error m) ocr =
        ⟨false, [], some ("Error processing image: " ++ m)⟩ :=
  ⟨rfl, rfl⟩

/-- C4: the parser tries the three patterns in the fixed order A, B, C and
returns the first per-pattern result whose match also has parseable numeric
groups; a numeric-parse failure on a matching pattern falls through to the
next pattern, and if all three fail the line yields no record.  Concretely,
on `"AB 1.2.3 4 - 5 x"` pattern A's regex matches but its value group
`"1.2.3"` is not a decimal, so the line yields no record. -/
theorem C4_pattern_order :
    (∀ line : List Char,
      parseTestLineCore line =
        ((tryPat .A line).orElse fun _ =>
          (tryPat .B line).orElse fun _ => tryPat .C line)) ∧
      (rsearch patternA "AB 1.2.3 4 - 5 x".toList).isSome = true ∧
      tryPat .A "AB 1.2.3 4 - 5 x".toList = none ∧
      parseTestLine "AB 1.2.3 4 - 5 x".toList = none := by
  refine ⟨fun line => ?_, by decide, by decide, by decide⟩
  rw [parseTestLineCore, coreLoop_cons, coreLoop_cons, coreLoop_cons]
  cases tryPat .C line <;> rfl

theorem ascSplits_sound (p : Char → Bool) :
    ∀ (s : List Char) (pr : List Char × List Char), pr ∈ ascSplits p s →
      pr.1 ++ pr.2 = s ∧ pr.1.all p = true := by
  intro s
  induction s with
  | nil =>
    intro pr hpr
    simp only [ascSplits, List.mem_singleton] at hpr
    rw [hpr]
    exact ⟨rfl, rfl⟩
  | cons c s ih =>
    intro pr hpr
    simp only [ascSplits, List.mem_cons] at hpr
    rcases hpr with h | h
    · rw [h]; exact ⟨rfl, rfl⟩
    · by_cases hc : p c
      · rw [if_pos hc] at h
        simp only [List.mem_map] at h
        obtain ⟨q, hq, hmap⟩ := h
        obtain ⟨h1, h2⟩ := ih q hq
        rw [← hmap]
        exact ⟨by simp [h1], by simp [List.all_cons, hc, h2]⟩
      · rw [if_neg hc] at h
        exact absurd h (List.not_mem_nil pr)

theorem ascSplits_full (p : Char → Bool) :
    ∀ s : List Char, s.all p = true →
      ∃ rest, (ascSplits p s).reverse = (s, []) :: rest := by
  intro s
  induction s with
  | nil => exact fun _ => ⟨[], rfl⟩
  | cons c s ih =>
    intro h
    rw [List.all_cons, Bool.and_eq_true] at h
    obtain ⟨rest, hrest⟩ := ih h.2
    exact ⟨rest.map (fun pr => (c :: pr.1, pr.2)) ++ [([], c :: s)], by
      simp only [ascSplits, if_pos h.1, List.reverse_cons, ← List.map_reverse, hrest,
        List.map_cons, List.cons_append]⟩

theorem rmatch_eos : ∀ s : List Char,
    rmatch [RItem.eos] s = if s = [] then some [] else none := by
  intro s
  cases s with
  | nil => rfl
  | cons c s => rfl

theorem rmatch_unitEnd (s : List Char) :
    rmatch unitEndPattern s =
      if s ≠ [] ∧ s.all isUnitChar = true then some [s] else none := by
  by_cases hall : s ≠ [] ∧ s.all isUnitChar = true
  · rw [if_pos hall]
    obtain ⟨hne, hs⟩ := hall
    obtain ⟨rest, hrest⟩ := ascSplits_full isUnitChar s hs
    simp [unitEndPattern, rmatch, rcands, hrest, hne, List.filterMap_cons,
      List.findSome?_cons]
  · rw [if_neg hall]
    simp only [unitEndPattern, rmatch]
    rw [List.findSome?_eq_none_iff]
    intro cnd hcnd
    simp only [rcands, List.mem_filterMap, List.mem_reverse] at hcnd
    obtain ⟨pr, hpr, hg⟩ := hcnd
    obtain ⟨hsum, hall'⟩ := ascSplits_sound isUnitChar s pr hpr
    by_cases he : pr.1.isEmpty
    · rw [if_pos he] at hg
      exact absurd hg (by simp)
    · rw [if_neg he] at hg
      have hcnd2 : cnd.2 = pr.2 := by
        rw [← Option.some_inj.mp hg]
      have hne2 : pr.2 ≠ [] := by
        intro h2
        apply hall
        have hs2 : pr.1 = s := by rw [← hsum, h2, List.append_nil]
        constructor
        · intro hsnil
          rw [hsnil] at hs2
          rw [List.isEmpty_iff] at he
          exact he hs2
        · rw [← hs2]; exact hall'
      cases hp2 : pr.2 with
      | nil => exact absurd hp2 hne2
      | cons d ds =>
        rw [hp2] at hcnd2
        simp [rmatch, rcands, hcnd2]

theorem rsearch_unitEnd :
    ∀ (s : List Char) (caps : List (List Char)),
      rsearch unitEndPattern s = some caps →
      ∃ u, caps = [u] ∧ u ≠ [] ∧ u.all isUnitChar = true ∧ u <:+ s := by
  intro s
  induction s with
  | nil =>
    intro caps h
    rw [rsearch, rmatch_unitEnd] at h
    simp at h
  | cons c s ih =>
    intro caps h
    rw [rsearch, rmatch_unitEnd] at h
    by_cases hall : (c :: s) ≠ [] ∧ (c :: s).all isUnitChar = true
    · rw [if_pos hall] at h
      simp only [Option.some_inj] at h
      exact ⟨c :: s, h.symm, hall.1, hall.2, List.suffix_rfl⟩
    · rw [if_neg hall] at h
      obtain ⟨u, h1, h2, h3, h4⟩ := ih caps h
      exact ⟨u, h1, h2, h3, h4.trans (List.suffix_cons c s)⟩

/-- C5: a continuation line can change only `test_unit`: all other fields of
the open record are unchanged by `_update_test_info`; a record whose unit is
non-empty is returned unmodified; when the unit-end search fails the record
is returned unmodified; and when the unit is empty and the search succeeds,
the capture is a nonempty run of unit characters anchored to the end of the
line (a suffix), and `test_unit` is set to it (stripped). -/
theorem C5_unit_backfill (t : TestRecord) (line : List Char) :
    ((updateTestInfo t line).test_name = t.test_name ∧
      (updateTestInfo t line).test_value = t.test_value ∧
      (updateTestInfo t line).bio_reference_range = t.bio_reference_range ∧
      (updateTestInfo t line).lab_test_out_of_range = t.lab_test_out_of_range) ∧
    (t.test_unit ≠ "" → updateTestInfo t line = t) ∧
    (rsearch unitEndPattern line = none → updateTestInfo t line = t) ∧
    (∀ caps, t.test_unit = "" → rsearch unitEndPattern line = some caps →
      ∃ u, caps = [u] ∧
        (updateTestInfo t line).test_unit = String.mk (pyStrip u) ∧
        u ≠ [] ∧ u.all isUnitChar = true ∧ u <:+ line) := by
  refine ⟨?_, ?_, ?_, ?_⟩
  · have h := updateTestInfo_projR t line
    rw [projR, projR, Prod.mk.injEq, Prod.mk.injEq, Prod.mk.injEq] at h
    exact ⟨h.1, h.2.1, h.2.2.1, h.2.2.2⟩
  · intro hne
    rw [updateTestInfo, if_neg hne]
  · intro hnone
    by_cases he : t.test_unit = ""
    · rw [updateTestInfo, if_pos he, hnone]
    · rw [updateTestInfo, if_neg he]
  · intro caps he hsome
    obtain ⟨u, hcaps, hu1, hu2, hu3⟩ := rsearch_unitEnd line caps hsome
    refine ⟨u, hcaps, ?_, hu1, hu2, hu3⟩
    rw [updateTestInfo, if_pos he, hsome, hcaps]

/-- Witness for C5: backfilling the unit of the open WBC record from the
continuation line `"K/uL"`. -/
theorem C5_witness :
    (updateTestInfo ⟨"WBC Count", "11.2", "4.0-11.0", "", true⟩
        "K/uL".toList).test_unit = "K/uL" := by
  obtain ⟨u, hcaps, hunit, -, -, -⟩ :=
    (C5_unit_backfill ⟨"WBC Count", "11.2", "4.0-11.0", "", true⟩
        "K/uL".toList).2.2.2 ["K/uL".toList] rfl (by decide)
  have hu : "K/uL".toList = u := (List.cons.inj hcaps).1
  rw [hunit, ← hu]
  decide

theorem extractGo_proj (ls : List (List Char)) :
    ∀ (acc : List TestRecord) (cur : Option TestRecord),
      (extractGo ls acc cur).map projR =
        acc.map projR ++ (cur.map projR).toList ++
          ((ls.filter fun l => !isBlank l).filterMap
            fun l => (parseTestLine l).map projR) := by
  induction ls with
  | nil =>
    intro acc cur
    cases cur <;> simp [extractGo, projR]
  | cons l ls ih =>
    intro acc cur
    by_cases hb : isBlank l
    · simp [extractGo, hb, ih]
    · cases hp : parseTestLine l with
      | none =>
        cases cur with
        | none => simp [extractGo, hb, hp, ih]
        | some c => simp [extractGo, hb, hp, ih, updateTestInfo_projR]
      | some t =>
        cases cur with
        | none => simp [extractGo, hb, hp, ih]
        | some c => simp [extractGo, hb, hp, ih]

/-- C6: the output list has exactly one record per record-start line, in
input order: projected onto the fields a continuation line can never touch
(everything but `test_unit`), the extracted list equals the in-order list of
parses of the non-blank lines that parse as record starts. -/
theorem C6_order_preservation (text : String) :
    (extractLabTests text).map projR =
      (((splitOnNl text.toList).filter fun l => !isBlank l).filterMap
        fun l => (parseTestLine l).map projR) := by
  rw [extractLabTests, extractGo_proj]
  simp

theorem extractGo_blank_middle (b : List Char) (hb : isBlank b = true) :
    ∀ (ls1 ls2 : List (List Char)) (acc : List TestRecord)
      (cur : Option TestRecord),
      extractGo (ls1 ++ b :: ls2) acc cur = extractGo (ls1 ++ ls2) acc cur := by
  intro ls1
  induction ls1 with
  | nil =>
    intro ls2 acc cur
    simp [extractGo, hb]
  | cons l ls1 ih =>
    intro ls2 acc cur
    by_cases hbl : isBlank l
    · simp only [List.cons_append, extractGo, hbl, if_pos]
      exact ih ls2 acc cur
    · cases hp : parseTestLine l <;> cases cur <;>
        simp only [List.cons_append, extractGo, hbl, if_neg, hp,
          Bool.false_eq_true, not_false_eq_true] <;>
        exact ih ls2 _ _

theorem extractGo_all_blank :
    ∀ (ls : List (List Char)) (acc : List TestRecord)
      (cur : Option TestRecord), ls.all isBlank = true →
      extractGo ls acc cur = acc ++ cur.toList := by
  intro ls
  induction ls with
  | nil => intro acc cur _; rfl
  | cons l ls ih =>
    intro acc cur h
    rw [List.all_cons, Bool.and_eq_true] at h
    simp only [extractGo, h.1, if_pos]
    exact ih acc cur h.2

theorem splitOnNl_all_blank :
    ∀ cs : List Char, cs.all isPySpace = true →
      (splitOnNl cs).all isBlank = true := by
  intro cs
  induction cs with
  | nil => intro _; rfl
  | cons c cs ih =>
    intro h
    rw [List.all_cons, Bool.and_eq_true] at h
    by_cases hc : c = '\n'
    · simp [splitOnNl, hc, isBlank, ih h.2]
    · have hrec := ih h.2
      cases hsp : splitOnNl cs with
      | nil => simp [splitOnNl, hc, hsp, isBlank, h.1]
      | cons l ls =>
        rw [hsp, List.all_cons, Bool.and_eq_true] at hrec
        simp [splitOnNl, hc, hsp, isBlank, h.1, List.all_cons]
        refine ⟨?_, ?_⟩
        · have h1 := hrec.1
          rw [isBlank] at h1
          exact List.all_eq_true.mp h1
        · intro x hx
          have h2 := List.all_eq_true.mp hrec.2 x hx
          rw [isBlank] at h2
          exact List.all_eq_true.mp h2

/-- C7: blank (whitespace-only) lines are no-ops wherever they occur —
inserting a blank line at any position leaves the assembler's result
unchanged — and an input text that is empty or all whitespace extracts to
the empty list. -/
theorem C7_blank_lines :
    (∀ (b : List Char) (ls1 ls2 : List (List Char)) (acc : List TestRecord)
      (cur : Option TestRecord), isBlank b = true →
      extractGo (ls1 ++ b :: ls2) acc cur = extractGo (ls1 ++ ls2) acc cur) ∧
    (∀ text : String, text.toList.all isPySpace = true →
      extractLabTests text = []) := by
  constructor
  · intro b ls1 ls2 acc cur hb
    exact extractGo_blank_middle b hb ls1 ls2 acc cur
  · intro text h
    rw [extractLabTests,
      extractGo_all_blank _ _ _ (splitOnNl_all_blank _ h)]
    rfl

/-- Witness for C7: dropping a blank line between two lines, and the
whitespace-only text `" "`. -/
theorem C7_witness :
    extractGo ([['a']] ++ [' '] :: [['b']]) [] none =
        extractGo ([['a']] ++ [['b']]) [] none ∧
      extractLabTests " " = [] :=
  ⟨C7_blank_lines.1 [' '] [['a']] [['b']] [] none (by decide),
   C7_blank_lines.2 " " (by decide)⟩
